import Mathlib

/-!
Verification development for the V3D mini-golf planar-positioning project.

The Python sources are shallowly embedded over exact rational arithmetic:

* `calibration.py`   → `HomographyCalibrator` (3×3 projective mapping, stored
  with its inverse, behind a `calibration_done` flag);
* `positioning.py`   → `PlanarPositioner` (image↔plane conversion and the
  camera-height correction `k = Cz / (Cz - h)`);
* `tracking.py`      → `ColorTracker` (search-window tracking with a
  lost-frame counter; the OpenCV colour segmentation of one frame is
  abstracted into the observation it yields, `TrackObs`);
* `pyScripts/game_engine.py` + `pyScripts/config.py` → `MiniGolfEngine`
  (motion hysteresis, stroke counting, hole-in detection, level advance).

Euclidean distances in the Python code (`np.linalg.norm`) are compared only
against nonnegative constant thresholds, so the embedding stores and compares
*squared* distances against the squared thresholds, which is equivalent and
keeps every definition executable over `ℚ`.  Wall-clock time (`time.time()`)
is passed explicitly as a rational `now` argument.
-/

/-- A 2-D point (image pixels or plane centimetres), exact rationals. -/
abbrev Pt := ℚ × ℚ

/-- Squared Euclidean distance between two points
(`np.linalg.norm(a - b) ** 2`). -/
def distSqQ (a b : Pt) : ℚ := (a.1 - b.1) * (a.1 - b.1) + (a.2 - b.2) * (a.2 - b.2)

/-- Python `int(q)` truncates toward zero. -/
def pyInt (q : ℚ) : ℤ := if q < 0 then -((-q).floor) else q.floor

/-- Python `max` on two numbers (returns the second on ties, as `max` does). -/
def ratMax (a b : ℚ) : ℚ := if b < a then a else b

/-- `abs` on an exact rational (Python `abs`). -/
def ratAbs (q : ℚ) : ℚ := if q < 0 then -q else q

/-- `ratAbs` is the lattice absolute value. -/
theorem ratAbs_eq_abs (q : ℚ) : ratAbs q = |q| := by
  unfold ratAbs
  rcases lt_or_le q 0 with h | h
  · rw [if_pos h, abs_of_neg h]
  · rw [if_neg (not_lt.mpr h), abs_of_nonneg h]

/-- `ratMax` is the lattice maximum. -/
theorem ratMax_eq_max (a b : ℚ) : ratMax a b = max a b := by
  unfold ratMax
  rcases lt_or_le b a with h | h
  · rw [if_pos h, max_eq_left h.le]
  · rw [if_neg (not_lt.mpr h), max_eq_right h]

/-! ## 3×3 matrices (numpy arrays used by `calibration.py`) -/

/-- A 3×3 rational matrix with explicit entries. -/
structure Mat3 where
  m00 : ℚ
  m01 : ℚ
  m02 : ℚ
  m10 : ℚ
  m11 : ℚ
  m12 : ℚ
  m20 : ℚ
  m21 : ℚ
  m22 : ℚ
deriving DecidableEq

/-- The identity matrix. -/
def id3 : Mat3 :=
  { m00 := 1, m01 := 0, m02 := 0
    m10 := 0, m11 := 1, m12 := 0
    m20 := 0, m21 := 0, m22 := 1 }

/-- Matrix product (`A @ B`). -/
def mat3Mul (A B : Mat3) : Mat3 :=
  { m00 := A.m00 * B.m00 + A.m01 * B.m10 + A.m02 * B.m20
    m01 := A.m00 * B.m01 + A.m01 * B.m11 + A.m02 * B.m21
    m02 := A.m00 * B.m02 + A.m01 * B.m12 + A.m02 * B.m22
    m10 := A.m10 * B.m00 + A.m11 * B.m10 + A.m12 * B.m20
    m11 := A.m10 * B.m01 + A.m11 * B.m11 + A.m12 * B.m21
    m12 := A.m10 * B.m02 + A.m11 * B.m12 + A.m12 * B.m22
    m20 := A.m20 * B.m00 + A.m21 * B.m10 + A.m22 * B.m20
    m21 := A.m20 * B.m01 + A.m21 * B.m11 + A.m22 * B.m21
    m22 := A.m20 * B.m02 + A.m21 * B.m12 + A.m22 * B.m22 }

/-- Matrix–vector product (`M @ p` for a homogeneous 3-vector). -/
def mulVec3 (M : Mat3) (v : ℚ × ℚ × ℚ) : ℚ × ℚ × ℚ :=
  (M.m00 * v.1 + M.m01 * v.2.1 + M.m02 * v.2.2,
   M.m10 * v.1 + M.m11 * v.2.1 + M.m12 * v.2.2,
   M.m20 * v.1 + M.m21 * v.2.1 + M.m22 * v.2.2)

/-- Determinant of a 3×3 matrix. -/
def det3 (M : Mat3) : ℚ :=
  M.m00 * (M.m11 * M.m22 - M.m12 * M.m21)
    - M.m01 * (M.m10 * M.m22 - M.m12 * M.m20)
    + M.m02 * (M.m10 * M.m21 - M.m11 * M.m20)

/-- Exact matrix inverse via the adjugate (`np.linalg.inv`); `none` models the
`LinAlgError` raised on a singular input. -/
def inv3 (M : Mat3) : Option Mat3 :=
  let d := det3 M
  if d = 0 then none
  else some
    { m00 := (M.m11 * M.m22 - M.m12 * M.m21) / d
      m01 := (M.m02 * M.m21 - M.m01 * M.m22) / d
      m02 := (M.m01 * M.m12 - M.m02 * M.m11) / d
      m10 := (M.m12 * M.m20 - M.m10 * M.m22) / d
      m11 := (M.m00 * M.m22 - M.m02 * M.m20) / d
      m12 := (M.m02 * M.m10 - M.m00 * M.m12) / d
      m20 := (M.m10 * M.m21 - M.m11 * M.m20) / d
      m21 := (M.m01 * M.m20 - M.m00 * M.m21) / d
      m22 := (M.m00 * M.m11 - M.m01 * M.m10) / d }

/-! ## `calibration.py` — `HomographyCalibrator`

Only the numeric core is embedded: the stored mapping pair and the flag,
`_compute_homography`, and the two conversion methods.  The OpenCV UI paths
(`calibrate_manual`, `calibrate_aruco`) merely gather the four correspondence
points and then call `_compute_homography`, whose `cv2.findHomography` result
is abstracted here into the `solved` argument. -/

/-- The homography underflow guard `1e-10` used by both conversions. -/
def homogEps : ℚ := 1 / 10000000000

/-- State of `HomographyCalibrator`: `H` (image → world), `H_inv`
(world → image) and `_calibration_done`.  Both matrices start as `None`. -/
structure HomographyCalibrator where
  H : Option Mat3
  H_inv : Option Mat3
  calibration_done : Bool
deriving DecidableEq

/-- A freshly constructed calibrator (`__init__`). -/
def HomographyCalibrator.mk0 : HomographyCalibrator :=
  { H := none, H_inv := none, calibration_done := false }

/-- `_compute_homography`, with the `cv2.findHomography` output on the stored
correspondences passed in as `solved`.  Mirrors the Python statement order:
`self.H` is assigned the solver output first; on `None` the method marks the
calibration failed and returns `False` (leaving `H_inv` alone); otherwise it
inverts `H` (an `Except.error` carries the state at the point where
`np.linalg.inv` would raise on a singular solve) and reports success. -/
def HomographyCalibrator.compute_homography (c : HomographyCalibrator)
    (solved : Option Mat3) : Except HomographyCalibrator (HomographyCalibrator × Bool) :=
  match solved with
  | none => .ok ({ c with H := none, calibration_done := false }, false)
  | some M =>
    match inv3 M with
    | none => .error { c with H := some M }
    | some Minv =>
      .ok ({ c with H := some M, H_inv := some Minv, calibration_done := true }, true)

/-- `image_to_world`: image pixel → plane point.  Requires calibration; the
transformed homogeneous coordinate must not underflow `1e-10`.  (In every
state the Python code reaches, `calibration_done = true` implies `H` is an
actual array; the `none` row is the uninhabited remainder of the `Option`.) -/
def HomographyCalibrator.image_to_world (c : HomographyCalibrator) (pt : Pt) :
    Option Pt :=
  if !c.calibration_done then none
  else
    match c.H with
    | none => none
    | some M =>
      let w := mulVec3 M (pt.1, pt.2, 1)
      if ratAbs w.2.2 < homogEps then none
      else some (w.1 / w.2.2, w.2.1 / w.2.2)

/-- `world_to_image`: plane point → image pixel, via `H_inv`. -/
def HomographyCalibrator.world_to_image (c : HomographyCalibrator) (pt : Pt) :
    Option Pt :=
  if !c.calibration_done then none
  else
    match c.H_inv with
    | none => none
    | some M =>
      let q := mulVec3 M (pt.1, pt.2, 1)
      if ratAbs q.2.2 < homogEps then none
      else some (q.1 / q.2.2, q.2.1 / q.2.2)

/-- `set_homography_direct` (used by the demo): store `H` and its inverse and
mark the calibrator done; errors if `H` is singular, as `np.linalg.inv` would. -/
def HomographyCalibrator.set_homography_direct (c : HomographyCalibrator)
    (M : Mat3) : Option HomographyCalibrator :=
  match inv3 M with
  | none => none
  | some Minv => some { c with H := some M, H_inv := some Minv, calibration_done := true }

/-! ## `positioning.py` — `PlanarPositioner`

`_compute_camera_center` decomposes the homography with vector norms and an
SVD, both irrational-valued; the claims below treat the resulting
`_camera_center_world` as given state (it is also settable directly through
`set_camera_center`), so the positioner is embedded as the calibrator plus
that optional 3-vector. -/

/-- The height-correction tolerance `1e-6`. -/
def heightEps : ℚ := 1 / 1000000

/-- State of `PlanarPositioner`. -/
structure PlanarPositioner where
  calibrator : HomographyCalibrator
  camera_center_world : Option (ℚ × ℚ × ℚ)
deriving DecidableEq

/-- `image_to_plane`: delegates to the calibrator's `image_to_world`. -/
def PlanarPositioner.image_to_plane (p : PlanarPositioner) (pt : Pt) : Option Pt :=
  p.calibrator.image_to_world pt

/-- `plane_to_image`: delegates to the calibrator's `world_to_image`. -/
def PlanarPositioner.plane_to_image (p : PlanarPositioner) (pt : Pt) : Option Pt :=
  p.calibrator.world_to_image pt

/-- `set_camera_center`. -/
def PlanarPositioner.set_camera_center (p : PlanarPositioner)
    (c : ℚ × ℚ × ℚ) : PlanarPositioner :=
  { p with camera_center_world := some c }

/-- `correct_height`: maps the apparent plane position of an object whose
centre sits `object_height` above the plane to its true plane position, by
scaling along the ray from the camera's vertical projection with factor
`k = Cz / (Cz - h)`.  Returns the input unchanged when `|h| < 1e-6`, when no
camera-centre estimate exists, or when `|Cz - h| < 1e-6`. -/
def PlanarPositioner.correct_height (p : PlanarPositioner)
    (apparent_position : Option Pt) (object_height : ℚ) : Option Pt :=
  match apparent_position with
  | none => none
  | some P =>
    if ratAbs object_height < heightEps then some P
    else
      match p.camera_center_world with
      | none => some P
      | some C =>
        let Cx := C.1
        let Cy := C.2.1
        let Cz := C.2.2
        if ratAbs (Cz - object_height) < heightEps then some P
        else
          let k := Cz / (Cz - object_height)
          some (Cx + k * (P.1 - Cx), Cy + k * (P.2 - Cy))

/-- `get_ball_world_position`: apparent position, then optional height
correction by the ball's radius. -/
def PlanarPositioner.get_ball_world_position (p : PlanarPositioner) (pt : Pt)
    (ball_radius_cm : Option ℚ) : Option Pt :=
  match p.image_to_plane pt with
  | none => none
  | some apparent =>
    match ball_radius_cm with
    | some r => if 0 < r then p.correct_height (some apparent) r else some apparent
    | none => some apparent

/-! ## `tracking.py` — `ColorTracker`

The per-frame OpenCV work (ROI clamping against the frame, colour
segmentation, morphology, contour scoring) is abstracted into the outcome it
produces for that frame, `TrackObs`; the state transitions and return values
of `ColorTracker.update` are embedded exactly. -/

/-- `_max_lost_frames` (30). -/
def maxLostFrames : ℕ := 30

/-- What one frame's ROI processing yielded:
the search window degenerated (`x2-x1 < 10 or y2-y1 < 10`); the mask had no
contours; contours existed but none passed the radius/area filters; or the
best-scoring candidate `(cx, cy, radius)` was found. -/
inductive TrackObs where
  | windowDegenerate
  | noContours
  | noCandidate
  | found (cx cy radius : ℚ)
deriving DecidableEq

/-- State of `ColorTracker`.  Python initialises `last_position`/`last_radius`
to `None` and never reads them before `initialize` sets them (`update` bails
out first), so they are carried unconditionally with `(0,0)`/`0` placeholders
until `initialized` is set. -/
structure ColorTracker where
  last_position : Pt
  last_radius : ℚ
  initialized : Bool
  lost_counter : ℕ
  velocity : Pt
deriving DecidableEq

/-- A freshly constructed tracker (`__init__`). -/
def ColorTracker.mk0 : ColorTracker :=
  { last_position := (0, 0), last_radius := 0, initialized := false
    lost_counter := 0, velocity := (0, 0) }

/-- `initialize(cx, cy, radius)`. -/
def ColorTracker.initialize (t : ColorTracker) (cx cy radius : ℚ) : ColorTracker :=
  { t with last_position := (cx, cy), last_radius := radius
           initialized := true, lost_counter := 0, velocity := (0, 0) }

/-- `is_lost`: the lost counter strictly exceeds the 30-frame ceiling. -/
def ColorTracker.is_lost (t : ColorTracker) : Bool :=
  decide (maxLostFrames < t.lost_counter)

/-- `update(frame)`: new state and the returned `(cx, cy, radius)` (Python
`int`-truncated) or `None`.  Branches follow the source: a degenerate window
counts a lost frame and returns `None`; an empty contour set counts a lost
frame and coasts on the last known position while the counter is still at or
below the ceiling; contours with no surviving candidate count a lost frame
but always coast; a found candidate updates the smoothed velocity and radius
and resets the counter. -/
def ColorTracker.update (t : ColorTracker) (obs : TrackObs) :
    ColorTracker × Option (ℤ × ℤ × ℤ) :=
  if !t.initialized then (t, none)
  else
    match obs with
    | .windowDegenerate =>
      ({ t with lost_counter := t.lost_counter + 1 }, none)
    | .noContours =>
      let t1 := { t with lost_counter := t.lost_counter + 1 }
      if t1.lost_counter ≤ maxLostFrames then
        (t1, some (pyInt t1.last_position.1, pyInt t1.last_position.2, pyInt t1.last_radius))
      else (t1, none)
    | .noCandidate =>
      let t1 := { t with lost_counter := t.lost_counter + 1 }
      (t1, some (pyInt t1.last_position.1, pyInt t1.last_position.2, pyInt t1.last_radius))
    | .found cx cy radius =>
      let alpha : ℚ := 3 / 5
      let newVel : Pt := (cx - t.last_position.1, cy - t.last_position.2)
      let vel : Pt := (alpha * newVel.1 + (1 - alpha) * t.velocity.1,
                       alpha * newVel.2 + (1 - alpha) * t.velocity.2)
      let newRadius := 7 / 10 * t.last_radius + 3 / 10 * radius
      ({ t with last_position := (cx, cy), last_radius := newRadius
                lost_counter := 0, velocity := vel },
       some (pyInt cx, pyInt cy, pyInt newRadius))

/-- `n` consecutive frames in which no matching contour is found inside the
search window (`contours` empty each time). -/
def coastSteps (t : ColorTracker) (n : ℕ) : ColorTracker :=
  (fun s => (ColorTracker.update s TrackObs.noContours).1)^[n] t

/-! ## `pyScripts/config.py` — game constants (squared where they bound a
Euclidean distance) -/

/-- `HOLE_RADIUS_CM = 3.5`, squared. -/
def holeRadiusSq : ℚ := 49 / 4

/-- `HOLE_IN_TOLERANCE_CM = 4.0`, squared. -/
def holeInTolSq : ℚ := 16

/-- `BALL_STOPPED_THRESHOLD_CM = 0.8`, squared. -/
def stoppedThreshSq : ℚ := 16 / 25

/-- `BALL_STOPPED_FRAMES = 15`. -/
def ballStoppedFrames : ℕ := 15

/-- `MAX_PUTTS_PER_HOLE = 10`. -/
def maxPuttsPerHole : ℕ := 10

/-- `HOLE_POSITIONS` (five level targets, cm). -/
def holePositions : List Pt := [(45, 20), (15, 10), (50, 35), (10, 30), (30, 5)]

/-- `OBSTACLES` (shipped empty). -/
def obstaclesConfig : List (ℚ × ℚ × ℚ) := []

/-- `self._max_history = config.BALL_STOPPED_FRAMES * 2`. -/
def maxHistory : ℕ := ballStoppedFrames * 2

/-- `self._celebration_duration = 3.0` seconds. -/
def celebrationDuration : ℚ := 3

/-! ## `pyScripts/game_engine.py` — `GameState` and `MiniGolfEngine` -/

/-- Which status message `self.state.status` holds, with the numeric values
the Python f-strings interpolate (distances carried squared, `none` standing
for the initial `float('inf')`). -/
inductive Status where
  | empty
  | levelStart (level : ℕ)
  | celebrating (remaining : ℚ)
  | notDetected
  | moving (dSq : Option ℚ)
  | hitBall (level : ℕ)
  | maxPuttsReached
  | puttsDist (putts : ℕ) (dSq : Option ℚ)
  | holeIn (putts : ℕ)
  | completed (total : ℕ)
  | restarted (level : ℕ)
deriving DecidableEq

/-- `GameState.__init__`'s fields (`distance_to_hole` stored squared,
`none` = `float('inf')`). -/
structure GameState where
  level : ℕ
  putts : ℕ
  total_score : ℕ
  status : Status
  ball_world_pos : Option Pt
  ball_image_pos : Option Pt
  hole_position : Option Pt
  obstacles : List (ℚ × ℚ × ℚ)
  is_ball_moving : Bool
  is_hole_in : Bool
  game_over : Bool
  distance_to_hole_sq : Option ℚ
deriving DecidableEq

/-- A fresh `GameState()`. -/
def GameState.init : GameState :=
  { level := 1, putts := 0, total_score := 0, status := Status.empty
    ball_world_pos := none, ball_image_pos := none, hole_position := none
    obstacles := obstaclesConfig, is_ball_moving := false, is_hole_in := false
    game_over := false, distance_to_hole_sq := none }

/-- `MiniGolfEngine`'s state: the public `GameState` plus the private
fields. -/
structure MiniGolfEngine where
  state : GameState
  stopped_frame_count : ℕ
  last_positions : List Pt
  hole_in_time : ℚ
  celebrating : Bool
  level_start_time : ℚ
deriving DecidableEq

/-- `MiniGolfEngine.__init__`. -/
def MiniGolfEngine.mk0 : MiniGolfEngine :=
  { state := GameState.init, stopped_frame_count := 0, last_positions := [],
    hole_in_time := 0, celebrating := false, level_start_time := 0 }

/-- `start_game` (with `_set_hole_for_level(1)` inlined:
`idx = (1 - 1) % 5 = 0`). -/
def MiniGolfEngine.start_game (e : MiniGolfEngine) (now : ℚ) : MiniGolfEngine :=
  { e with
    state := { GameState.init with
               hole_position := some (holePositions.getD ((1 - 1) % holePositions.length) (0, 0)),
               status := Status.levelStart 1 },
    celebrating := false, level_start_time := now }

/-- `self._last_positions.append(...)` followed by the trim to the most
recent `_max_history` entries. -/
def pushHist (hist : List Pt) (p : Pt) : List Pt :=
  let h := hist ++ [p]
  if maxHistory < h.length then h.drop (h.length - maxHistory) else h

/-- The consecutive-sample squared displacements
(`norm(positions[i] - positions[i-1]) ** 2` for `i = 1..`). -/
def consecDispSq : List Pt → List ℚ
  | a :: b :: rest => distSqQ b a :: consecDispSq (b :: rest)
  | _ => []

/-- `max_displacement` (squared): fold of `max` starting at `0`. -/
def maxDispSq (l : List Pt) : ℚ := (consecDispSq l).foldl ratMax 0

/-- `_check_movement`, returning the verdict and the updated
`_stopped_frame_count`.  Fewer than `BALL_STOPPED_FRAMES` history entries:
assume moving, counter untouched.  Otherwise the maximum consecutive squared
displacement over the last `BALL_STOPPED_FRAMES` samples either bumps the
stillness counter (below threshold) or resets it to zero, and the ball is
moving while the counter is below `BALL_STOPPED_FRAMES`. -/
def checkMovement (hist : List Pt) (counter : ℕ) : Bool × ℕ :=
  if hist.length < ballStoppedFrames then (true, counter)
  else
    let recent := hist.drop (hist.length - ballStoppedFrames)
    let counter2 := if maxDispSq recent < stoppedThreshSq then counter + 1 else 0
    (decide (counter2 < ballStoppedFrames), counter2)

/-- `dist < c` for the local `dist` of `update`, which is `float('inf')`
(`none`) when there is no hole position: infinity compares `False`. -/
def optLt (dSq : Option ℚ) (cSq : ℚ) : Bool :=
  match dSq with
  | some d => decide (d < cSq)
  | none => false

/-- `_hole_in`: set the holed flag, start the celebration clock, clamp the
stroke count up to at least `1`, add it to the total score. -/
def MiniGolfEngine.hole_in (e : MiniGolfEngine) (now : ℚ) : MiniGolfEngine :=
  let putts := if e.state.putts = 0 then 1 else e.state.putts
  { e with celebrating := true,
           hole_in_time := now,
           state := { e.state with is_hole_in := true,
                                   putts := putts,
                                   total_score := e.state.total_score + putts,
                                   status := Status.holeIn putts } }

/-- `_advance_level`: bump the level, reset per-level counters and history;
past the last configured hole set `game_over`, otherwise select the next hole
(cycling through `HOLE_POSITIONS`). -/
def MiniGolfEngine.advance_level (e : MiniGolfEngine) (now : ℚ) : MiniGolfEngine :=
  let lvl := e.state.level + 1
  let e1 : MiniGolfEngine :=
    { e with stopped_frame_count := 0,
             last_positions := [],
             state := { e.state with level := lvl, putts := 0, is_hole_in := false } }
  if holePositions.length < lvl then
    { e1 with state := { e1.state with game_over := true,
                                       status := Status.completed e1.state.total_score } }
  else
    { e1 with level_start_time := now,
              state := { e1.state with
                         hole_position := some (holePositions.getD ((lvl - 1) % holePositions.length) (0, 0)),
                         status := Status.levelStart lvl } }

/-- The body of `update` once a ball position is available. -/
def MiniGolfEngine.update_located (e : MiniGolfEngine) (now : ℚ) (p : Pt) : MiniGolfEngine :=
  let st0 := { e.state with ball_world_pos := some p }
  let hist := pushHist e.last_positions p
  let dSq : Option ℚ := st0.hole_position.map (fun hp => distSqQ p hp)
  let st1 := match dSq with
    | some d => { st0 with distance_to_hole_sq := some d }
    | none => st0
  let mc := checkMovement hist e.stopped_frame_count
  let is_moving := mc.1
  let was_moving := st1.is_ball_moving
  let st2 := { st1 with is_ball_moving := is_moving }
  let st3 := if was_moving && !is_moving then { st2 with putts := st2.putts + 1 } else st2
  let e1 : MiniGolfEngine := { e with state := st3, last_positions := hist, stopped_frame_count := mc.2 }
  if optLt dSq holeInTolSq && (!is_moving || optLt dSq holeRadiusSq) then
    e1.hole_in now
  else if is_moving then
    { e1 with state := { e1.state with status := Status.moving dSq } }
  else if e1.state.putts = 0 then
    { e1 with state := { e1.state with status := Status.hitBall e1.state.level } }
  else if maxPuttsPerHole ≤ e1.state.putts then
    MiniGolfEngine.advance_level
      { e1 with state := { e1.state with status := Status.maxPuttsReached, putts := maxPuttsPerHole } } now
  else
    { e1 with state := { e1.state with status := Status.puttsDist e1.state.putts dSq } }

/-- `update(ball_world_pos)` at wall-clock time `now`.  Game over: return the
state untouched.  Celebrating: advance the level once the celebration
duration has elapsed, otherwise only refresh the countdown status.  No ball:
only refresh the status.  Otherwise run the located-ball body. -/
def MiniGolfEngine.update (e : MiniGolfEngine) (now : ℚ) (ball_world_pos : Option Pt) : MiniGolfEngine :=
  if e.state.game_over then e
  else if e.celebrating then
    let elapsed := now - e.hole_in_time
    if celebrationDuration < elapsed then
      MiniGolfEngine.advance_level { e with celebrating := false } now
    else
      { e with state := { e.state with status := Status.celebrating (celebrationDuration - elapsed) } }
  else
    match ball_world_pos with
    | none => { e with state := { e.state with status := Status.notDetected } }
    | some p => e.update_located now p

/-- `restart_level`: reset the per-level counters, history and celebration,
touching nothing else but the status text. -/
def MiniGolfEngine.restart_level (e : MiniGolfEngine) : MiniGolfEngine :=
  { e with stopped_frame_count := 0,
           last_positions := [],
           celebrating := false,
           state := { e.state with putts := 0,
                                   is_hole_in := false,
                                   status := Status.restarted e.state.level } }

/-- `check_obstacle_collision` (`BALL_REAL_RADIUS_CM = 2.0`): squared-distance
comparison against the squared combined radius. -/
def MiniGolfEngine.check_obstacle_collision (e : MiniGolfEngine) (ball_pos : Pt) :
    Option (ℚ × ℚ × ℚ) :=
  e.state.obstacles.find? (fun o => distSqQ ball_pos (o.1, o.2.1) < (o.2.2 + 2) * (o.2.2 + 2))

/-- A freshly started game (`MiniGolfEngine()` then `start_game()`), at
time `0`. -/
def freshEngine : MiniGolfEngine := MiniGolfEngine.mk0.start_game 0

/-- The fresh engine updated `n` times with the same located position `p`
(time held at `0`; `update` reads the clock only while celebrating). -/
def stillRun (p : Pt) (n : ℕ) : MiniGolfEngine :=
  (fun e => MiniGolfEngine.update e 0 (some p))^[n] freshEngine

/-! ## Theorems

One theorem per claim (plus counterexamples, witnesses and shared helper
lemmas).  Distances in the claims are phrased on the squared quantities the
embedding carries; both sides of every comparison are nonnegative, so the
squared comparisons are equivalent to the original ones. -/

/-! ### C10 — `restart_level` resets exactly the per-level state -/

/-- C10: restarting the current level resets the stroke count, the holed
flag, the stillness counter, the position history and the celebration, while
leaving the level index, the cumulative score, the hole position, the
obstacle list and the game-over flag unchanged. -/
theorem c10_restart_level_frame (e : MiniGolfEngine) :
    e.restart_level.state.putts = 0 ∧
    e.restart_level.state.is_hole_in = false ∧
    e.restart_level.stopped_frame_count = 0 ∧
    e.restart_level.last_positions = [] ∧
    e.restart_level.celebrating = false ∧
    e.restart_level.state.level = e.state.level ∧
    e.restart_level.state.total_score = e.state.total_score ∧
    e.restart_level.state.hole_position = e.state.hole_position ∧
    e.restart_level.state.obstacles = e.state.obstacles ∧
    e.restart_level.state.game_over = e.state.game_over := by
  simp [MiniGolfEngine.restart_level]

/-! ### C9 — level exhaustion sets game over; game over freezes the state -/

/-- C9: advancing past the last configured hole position sets the game-over
flag, and an update on a game-over engine returns the whole state unchanged,
so strokes and score never change after game over. -/
theorem c9_level_exhaustion (e e' : MiniGolfEngine) (now now' : ℚ) (pos : Option Pt)
    (hlvl : holePositions.length ≤ e.state.level) (hgo : e'.state.game_over = true) :
    (e.advance_level now).state.game_over = true ∧ e'.update now' pos = e' := by
  constructor
  · have h : holePositions.length < e.state.level + 1 := Nat.lt_succ_of_le hlvl
    simp [MiniGolfEngine.advance_level, h]
  · simp [MiniGolfEngine.update, hgo]

/-- An engine that has just finished the last (fifth) hole, marked game
over. -/
def engineLastLevel : MiniGolfEngine :=
  { MiniGolfEngine.mk0 with state := { GameState.init with level := 5, game_over := true } }

/-- C9 witness: the level-5 game-over engine. -/
theorem c9_witness :
    (engineLastLevel.advance_level 0).state.game_over = true ∧
    engineLastLevel.update 1 none = engineLastLevel :=
  c9_level_exhaustion engineLastLevel engineLastLevel 0 1 none (by decide) rfl

/-! ### C2 — failed homography solve -/

/-- C2 (amended): a failed homography solve reports failure
(`calibrated = false`, returning `False`) and leaves the stored inverse
transform untouched, but overwrites the stored forward transform with the
solver's empty output. -/
theorem c2_failed_solve (c : HomographyCalibrator) :
    c.compute_homography none =
      Except.ok ({ c with H := none, calibration_done := false }, false) := rfl

/-- A calibrator holding a previously published mapping. -/
def calibPrev : HomographyCalibrator :=
  { H := some id3, H_inv := some id3, calibration_done := true }

/-- C2 counterexample: after a failed solve on a previously calibrated
state, the stored forward transform is `none`, not the prior matrix — the
previously published mapping is not retained unchanged. -/
theorem c2_counterexample :
    calibPrev.compute_homography none =
      Except.ok ({ calibPrev with H := none, calibration_done := false }, false) ∧
    ({ calibPrev with H := none, calibration_done := false } : HomographyCalibrator).H ≠
      calibPrev.H := by
  refine ⟨rfl, ?_⟩
  simp [calibPrev]

/-! ### C7 — height correction degrades to the identity -/

/-- C7: height correction returns the apparent position unchanged whenever
the height's magnitude is below the `1e-6` tolerance (in particular at
height 0), whenever no camera-centre estimate is available, and whenever the
camera height `Cz` is within `1e-6` of the object height. -/
theorem c7_height_identity (p : PlanarPositioner) (P : Pt) (h : ℚ) :
    (|h| < heightEps → p.correct_height (some P) h = some P) ∧
    (p.camera_center_world = none → p.correct_height (some P) h = some P) ∧
    (∀ C : ℚ × ℚ × ℚ, p.camera_center_world = some C →
      |C.2.2 - h| < heightEps → p.correct_height (some P) h = some P) := by
  unfold PlanarPositioner.correct_height
  simp only [ratAbs_eq_abs]
  refine ⟨fun hh => by rw [if_pos hh], fun hc => ?_, fun C hC hz => ?_⟩
  · split
    · rfl
    · rw [hc]
  · split
    · rfl
    · rw [hC]
      simp only
      rw [if_pos hz]

/-- A positioner with a camera-centre estimate at `(3, 4, 50)`. -/
def pose7 : PlanarPositioner :=
  { calibrator := HomographyCalibrator.mk0, camera_center_world := some (3, 4, 50) }

/-- A positioner with no camera-centre estimate. -/
def pose7n : PlanarPositioner :=
  { calibrator := HomographyCalibrator.mk0, camera_center_world := none }

/-- C7 witness: height 0, missing pose, and camera at object height. -/
theorem c7_witness :
    pose7.correct_height (some (2, 9)) 0 = some (2, 9) ∧
    pose7n.correct_height (some (2, 9)) 5 = some (2, 9) ∧
    pose7.correct_height (some (2, 9)) 50 = some (2, 9) :=
  ⟨(c7_height_identity pose7 (2, 9) 0).1 (by norm_num [heightEps]),
   (c7_height_identity pose7n (2, 9) 5).2.1 rfl,
   (c7_height_identity pose7 (2, 9) 50).2.2 (3, 4, 50) rfl (by norm_num [heightEps])⟩

/-! ### C8 — height correction pushes points outward along the ray -/

/-- C8 (amended): when a camera-centre estimate `(Cx, Cy, Cz)` is available
with `Cz - h ≥ 1e-6` and `h ≥ 1e-6` (so `Cz > h > 0` and neither code
tolerance guard suppresses the correction), and the apparent point differs
from `(Cx, Cy)`, the correction factor `k = Cz / (Cz - h)` exceeds 1, the
corrected point is the apparent point scaled by `k` along the ray from
`(Cx, Cy)`, and it lies strictly farther from `(Cx, Cy)` than the apparent
point. -/
theorem c8_height_directionality (p : PlanarPositioner) (P : Pt) (h Cx Cy Cz : ℚ)
    (hcam : p.camera_center_world = some (Cx, Cy, Cz))
    (hh : heightEps ≤ h) (hzh : heightEps ≤ Cz - h) (hP : P ≠ (Cx, Cy)) :
    1 < Cz / (Cz - h) ∧
    p.correct_height (some P) h =
      some (Cx + Cz / (Cz - h) * (P.1 - Cx), Cy + Cz / (Cz - h) * (P.2 - Cy)) ∧
    distSqQ P (Cx, Cy) <
      distSqQ (Cx + Cz / (Cz - h) * (P.1 - Cx), Cy + Cz / (Cz - h) * (P.2 - Cy)) (Cx, Cy) := by
  have heps : (0 : ℚ) < heightEps := by norm_num [heightEps]
  have hh0 : 0 < h := lt_of_lt_of_le heps hh
  have hzh0 : 0 < Cz - h := lt_of_lt_of_le heps hzh
  have hk : 1 < Cz / (Cz - h) := by
    rw [one_lt_div hzh0]
    linarith
  have habs_h : ¬ ratAbs h < heightEps := by
    rw [ratAbs_eq_abs, abs_of_pos hh0]
    exact not_lt.mpr hh
  have habs_z : ¬ ratAbs (Cz - h) < heightEps := by
    rw [ratAbs_eq_abs, abs_of_pos hzh0]
    exact not_lt.mpr hzh
  have heq : p.correct_height (some P) h =
      some (Cx + Cz / (Cz - h) * (P.1 - Cx), Cy + Cz / (Cz - h) * (P.2 - Cy)) := by
    simp only [PlanarPositioner.correct_height, hcam, if_neg habs_h, if_neg habs_z]
  refine ⟨hk, heq, ?_⟩
  have hd : 0 < distSqQ P (Cx, Cy) := by
    have := Prod.ext_iff.not.mp hP
    push_neg at this
    unfold distSqQ
    rcases Classical.em (P.1 = Cx) with h1 | h1
    · have h2 : P.2 ≠ Cy := by
        intro h2
        exact hP (Prod.ext h1 h2)
      have : 0 < (P.2 - Cy) * (P.2 - Cy) := mul_self_pos.mpr (sub_ne_zero.mpr h2)
      nlinarith [mul_self_nonneg (P.1 - Cx)]
    · have : 0 < (P.1 - Cx) * (P.1 - Cx) := mul_self_pos.mpr (sub_ne_zero.mpr h1)
      nlinarith [mul_self_nonneg (P.2 - Cy)]
  have expand : distSqQ (Cx + Cz / (Cz - h) * (P.1 - Cx), Cy + Cz / (Cz - h) * (P.2 - Cy)) (Cx, Cy) =
      (Cz / (Cz - h)) * (Cz / (Cz - h)) * distSqQ P (Cx, Cy) := by
    unfold distSqQ
    ring
  rw [expand]
  nlinarith [mul_pos (mul_pos (sub_pos.mpr hk) (by linarith : (0 : ℚ) < Cz / (Cz - h) + 1)) hd]

/-- A positioner whose camera centre sits at `(0, 0, 10)`. -/
def pose8 : PlanarPositioner :=
  { calibrator := HomographyCalibrator.mk0, camera_center_world := some (0, 0, 10) }

/-- C8 witness: camera at height 10, object height 2, apparent point
`(1, 1)`: the correction factor is `5/4` and the corrected point is
`(5/4, 5/4)`. -/
theorem c8_witness :
    1 < (10 : ℚ) / (10 - 2) ∧
    pose8.correct_height (some (1, 1)) 2 =
      some (0 + 10 / (10 - 2) * (1 - 0), 0 + 10 / (10 - 2) * (1 - 0)) ∧
    distSqQ (1, 1) (0, 0) <
      distSqQ (0 + 10 / (10 - 2) * (1 - 0), 0 + 10 / (10 - 2) * (1 - 0)) (0, 0) :=
  c8_height_directionality pose8 (1, 1) 2 0 0 10 rfl
    (by norm_num [heightEps]) (by norm_num [heightEps])
    (by norm_num [Prod.ext_iff])

/-- A positioner whose camera centre sits at `(0, 0, 1)`. -/
def pose8c : PlanarPositioner :=
  { calibrator := HomographyCalibrator.mk0, camera_center_world := some (0, 0, 1) }

/-- C8 counterexample: with `Cz = 1 > h = 1e-7 > 0` and apparent point
`(1, 0) ≠ (0, 0)`, the code's `|h| < 1e-6` guard returns the apparent point
unchanged, so the corrected point is not strictly farther from `(Cx, Cy)`. -/
theorem c8_counterexample :
    0 < (1 : ℚ) / 10000000 ∧ (1 : ℚ) / 10000000 < 1 ∧
    ((1 : ℚ), (0 : ℚ)) ≠ ((0 : ℚ), (0 : ℚ)) ∧
    pose8c.correct_height (some (1, 0)) (1 / 10000000) = some (1, 0) ∧
    ¬ distSqQ ((1 : ℚ), (0 : ℚ)) (0, 0) < distSqQ ((1 : ℚ), (0 : ℚ)) (0, 0) := by
  refine ⟨by norm_num, by norm_num, by norm_num [Prod.ext_iff], ?_, lt_irrefl _⟩
  have hguard : ratAbs ((1 : ℚ) / 10000000) < heightEps := by
    rw [ratAbs_eq_abs, abs_of_pos (by norm_num)]
    norm_num [heightEps]
  simp only [PlanarPositioner.correct_height, if_pos hguard]

/-! ### C6 — image-to-plane conversion contract -/

/-- C6: the image-to-plane conversion returns `none` when the mapping is not
calibrated; when calibrated (with stored matrix `M`), it returns `none`
exactly when the homogeneous coordinate of the transformed point has
magnitude below `1e-10`, and otherwise the transformed point divided by that
homogeneous coordinate. -/
theorem c6_image_to_plane (p : PlanarPositioner) (pt : Pt) :
    (p.calibrator.calibration_done = false → p.image_to_plane pt = none) ∧
    (∀ M : Mat3, p.calibrator.calibration_done = true → p.calibrator.H = some M →
      p.image_to_plane pt =
        if |(mulVec3 M (pt.1, pt.2, 1)).2.2| < homogEps then none
        else some ((mulVec3 M (pt.1, pt.2, 1)).1 / (mulVec3 M (pt.1, pt.2, 1)).2.2,
                   (mulVec3 M (pt.1, pt.2, 1)).2.1 / (mulVec3 M (pt.1, pt.2, 1)).2.2)) := by
  constructor
  · intro hc
    simp [PlanarPositioner.image_to_plane, HomographyCalibrator.image_to_world, hc]
  · intro M hdone hH
    simp [PlanarPositioner.image_to_plane, HomographyCalibrator.image_to_world, hdone, hH,
      ratAbs_eq_abs]

/-- A calibrated positioner carrying the identity homography. -/
def pose6 : PlanarPositioner :=
  { calibrator := { H := some id3, H_inv := some id3, calibration_done := true },
    camera_center_world := none }

/-- An uncalibrated positioner. -/
def pose6u : PlanarPositioner :=
  { calibrator := HomographyCalibrator.mk0, camera_center_world := none }

/-- C6 witness: uncalibrated conversion yields `none`; the calibrated
identity mapping applied at `(7, 8)` follows the stated formula. -/
theorem c6_witness :
    pose6u.image_to_plane (7, 8) = none ∧
    pose6.image_to_plane (7, 8) =
      (if |(mulVec3 id3 ((7 : ℚ), (8 : ℚ), 1)).2.2| < homogEps then none
       else some ((mulVec3 id3 ((7 : ℚ), (8 : ℚ), 1)).1 / (mulVec3 id3 ((7 : ℚ), (8 : ℚ), 1)).2.2,
                  (mulVec3 id3 ((7 : ℚ), (8 : ℚ), 1)).2.1 / (mulVec3 id3 ((7 : ℚ), (8 : ℚ), 1)).2.2)) :=
  ⟨(c6_image_to_plane pose6u (7, 8)).1 rfl,
   (c6_image_to_plane pose6 (7, 8)).2 id3 rfl rfl⟩

/-! ### C5 — the stored transforms round-trip exactly -/

/-- Matrix–vector multiplication composes along the matrix product. -/
theorem mat3Mul_mulVec3 (A B : Mat3) (v : ℚ × ℚ × ℚ) :
    mulVec3 (mat3Mul A B) v = mulVec3 A (mulVec3 B v) := by
  simp only [mulVec3, mat3Mul]
  refine Prod.ext ?_ (Prod.ext ?_ ?_) <;> dsimp only <;> ring

/-- The identity matrix acts as the identity on homogeneous vectors. -/
theorem mulVec3_id3 (v : ℚ × ℚ × ℚ) : mulVec3 id3 v = v := by
  simp only [mulVec3, id3]
  refine Prod.ext ?_ (Prod.ext ?_ ?_) <;> dsimp only <;> ring

/-- C5: for a calibrated mapping whose stored transforms are mutually
inverse (`H · H_inv = I`, as `np.linalg.inv` guarantees exactly), and a
plane point `P` whose forward image exists (non-vanishing homogeneous
coordinate) and whose backward image also has a non-vanishing homogeneous
coordinate, converting plane → image → plane returns `P` exactly — in
particular within any relative tolerance. -/
theorem c5_round_trip (c : HomographyCalibrator) (M Minv : Mat3) (P Q : Pt)
    (hdone : c.calibration_done = true) (hH : c.H = some M) (hHi : c.H_inv = some Minv)
    (hinv : mat3Mul M Minv = id3)
    (hQ : c.world_to_image P = some Q)
    (hw : ¬ ratAbs (mulVec3 M (Q.1, Q.2, 1)).2.2 < homogEps) :
    c.image_to_world Q = some P := by
  have heps : (0 : ℚ) < homogEps := by norm_num [homogEps]
  -- unpack the forward conversion
  rw [HomographyCalibrator.world_to_image, hdone] at hQ
  simp only [Bool.not_true, Bool.false_eq_true, if_false, hHi] at hQ
  by_cases hg : ratAbs (mulVec3 Minv (P.1, P.2, 1)).2.2 < homogEps
  · rw [if_pos hg] at hQ
    cases hQ
  · rw [if_neg hg] at hQ
    have hq2 : (mulVec3 Minv (P.1, P.2, 1)).2.2 ≠ 0 := by
      intro h0
      rw [h0] at hg
      exact hg (by simpa [ratAbs] using heps)
    obtain rfl : Q = ((mulVec3 Minv (P.1, P.2, 1)).1 / (mulVec3 Minv (P.1, P.2, 1)).2.2,
        (mulVec3 Minv (P.1, P.2, 1)).2.1 / (mulVec3 Minv (P.1, P.2, 1)).2.2) :=
      (Option.some.injEq _ _ ▸ hQ).symm
    -- the backward conversion
    rw [HomographyCalibrator.image_to_world, hdone]
    simp only [Bool.not_true, Bool.false_eq_true, if_false, hH]
    rw [if_neg hw]
    have hMq : mulVec3 M (mulVec3 Minv (P.1, P.2, 1)) = (P.1, P.2, 1) := by
      rw [← mat3Mul_mulVec3, hinv, mulVec3_id3]
    set q := mulVec3 Minv (P.1, P.2, 1) with hqdef
    have hq0 : M.m00 * q.1 + M.m01 * q.2.1 + M.m02 * q.2.2 = P.1 :=
      congrArg Prod.fst hMq
    have hq1 : M.m10 * q.1 + M.m11 * q.2.1 + M.m12 * q.2.2 = P.2 :=
      congrArg (fun v => v.2.1) hMq
    have hq2' : M.m20 * q.1 + M.m21 * q.2.1 + M.m22 * q.2.2 = 1 :=
      congrArg (fun v => v.2.2) hMq
    simp only [mulVec3]
    have hw0 : M.m00 * (q.1 / q.2.2) + M.m01 * (q.2.1 / q.2.2) + M.m02 * 1 = P.1 / q.2.2 := by
      field_simp
      linear_combination hq0
    have hw1 : M.m10 * (q.1 / q.2.2) + M.m11 * (q.2.1 / q.2.2) + M.m12 * 1 = P.2 / q.2.2 := by
      field_simp
      linear_combination hq1
    have hw2 : M.m20 * (q.1 / q.2.2) + M.m21 * (q.2.1 / q.2.2) + M.m22 * 1 = 1 / q.2.2 := by
      field_simp
      linear_combination hq2'
    rw [hw0, hw1, hw2]
    have hinv2 : (1 : ℚ) / q.2.2 ≠ 0 := one_div_ne_zero hq2
    congr 1
    refine Prod.ext ?_ ?_ <;> dsimp only <;> field_simp

/-- A sample homography: scale x by 2 and translate (`[[2,0,1],[0,1,0],[0,0,1]]`). -/
def M5 : Mat3 :=
  { m00 := 2, m01 := 0, m02 := 1
    m10 := 0, m11 := 1, m12 := 0
    m20 := 0, m21 := 0, m22 := 1 }

/-- The exact inverse of `M5`. -/
def M5inv : Mat3 :=
  { m00 := 1 / 2, m01 := 0, m02 := -1 / 2
    m10 := 0, m11 := 1, m12 := 0
    m20 := 0, m21 := 0, m22 := 1 }

/-- A calibrator carrying `M5` and its inverse. -/
def calib5 : HomographyCalibrator :=
  { H := some M5, H_inv := some M5inv, calibration_done := true }

/-- C5 witness: the plane point `(3, 7)` maps to image point `(1, 7)` and
back to `(3, 7)` exactly. -/
theorem c5_witness : calib5.image_to_world (1, 7) = some (3, 7) :=
  c5_round_trip calib5 M5 M5inv (3, 7) (1, 7) rfl rfl rfl
    (by norm_num [mat3Mul, id3, M5, M5inv, Mat3.mk.injEq])
    (by norm_num [HomographyCalibrator.world_to_image, calib5, mulVec3, M5inv, ratAbs, homogEps])
    (by norm_num [mulVec3, M5, ratAbs, homogEps])

/-! ### C3 — tracker loss counting and coasting -/

/-- Over consecutive no-contour frames an initialised tracker stays
initialised, counts one lost frame per update, and keeps its last known
position and radius. -/
theorem coastSteps_spec (t : ColorTracker) (ht : t.initialized = true) (n : ℕ) :
    (coastSteps t n).initialized = true ∧
    (coastSteps t n).lost_counter = t.lost_counter + n ∧
    (coastSteps t n).last_position = t.last_position ∧
    (coastSteps t n).last_radius = t.last_radius := by
  induction n with
  | zero => exact ⟨ht, rfl, rfl, rfl⟩
  | succ m ih =>
    obtain ⟨h1, h2, h3, h4⟩ := ih
    have hstep : coastSteps t (m + 1) =
        ((coastSteps t m).update TrackObs.noContours).1 := by
      unfold coastSteps
      rw [Function.iterate_succ_apply']
    rw [hstep]
    simp only [ColorTracker.update, h1, Bool.not_true, Bool.false_eq_true, if_false]
    refine ⟨?_, ?_, ?_, ?_⟩ <;> split <;> dsimp only
    all_goals first
      | rfl
      | omega
      | exact h3
      | exact h4

set_option maxRecDepth 4000 in
/-- C3: a tracker initialised at `(cx, cy)` with radius `r` that sees no
matching contour inside its search window on consecutive frames is not lost
after the 30th such frame and lost after the 31st; while the lost counter
has not exceeded the 30-frame ceiling each such update returns the last
known position and radius (coasting), and the 31st returns `none`. -/
theorem c3_tracking_loss (cx cy r : ℚ) :
    (coastSteps ( ColorTracker.initialize ColorTracker.mk0 cx cy r) 30).is_lost = false ∧
    (coastSteps ( ColorTracker.initialize ColorTracker.mk0 cx cy r) 31).is_lost = true ∧
    (∀ k, k < 30 →
      ((coastSteps ( ColorTracker.initialize ColorTracker.mk0 cx cy r) k).update TrackObs.noContours).2 =
        some (pyInt cx, pyInt cy, pyInt r)) ∧
    ((coastSteps ( ColorTracker.initialize ColorTracker.mk0 cx cy r) 30).update TrackObs.noContours).2 = none := by
  have hinit : ( ColorTracker.initialize ColorTracker.mk0 cx cy r).initialized = true := rfl
  have hcnt0 : ( ColorTracker.initialize ColorTracker.mk0 cx cy r).lost_counter = 0 := rfl
  have hpos0 : ( ColorTracker.initialize ColorTracker.mk0 cx cy r).last_position = (cx, cy) := rfl
  have hrad0 : ( ColorTracker.initialize ColorTracker.mk0 cx cy r).last_radius = r := rfl
  refine ⟨?_, ?_, ?_, ?_⟩
  · have h := (coastSteps_spec ( ColorTracker.initialize ColorTracker.mk0 cx cy r) hinit 30).2.1
    simp only [ColorTracker.is_lost, h, hcnt0]
    decide
  · have h := (coastSteps_spec ( ColorTracker.initialize ColorTracker.mk0 cx cy r) hinit 31).2.1
    simp only [ColorTracker.is_lost, h, hcnt0]
    decide
  · intro k hk
    obtain ⟨h1, h2, h3, h4⟩ := coastSteps_spec ( ColorTracker.initialize ColorTracker.mk0 cx cy r) hinit k
    have hcnt : (coastSteps ( ColorTracker.initialize ColorTracker.mk0 cx cy r) k).lost_counter = k := by
      rw [h2, hcnt0, Nat.zero_add]
    simp only [ColorTracker.update, h1, Bool.not_true, Bool.false_eq_true, if_false, hcnt]
    have hle : k + 1 ≤ maxLostFrames := by
      simp only [maxLostFrames]
      omega
    rw [if_pos hle]
    dsimp only
    rw [h3, hpos0, h4, hrad0]
  · obtain ⟨h1, h2, h3, h4⟩ := coastSteps_spec ( ColorTracker.initialize ColorTracker.mk0 cx cy r) hinit 30
    have hcnt : (coastSteps ( ColorTracker.initialize ColorTracker.mk0 cx cy r) 30).lost_counter = 30 := by
      rw [h2, hcnt0, Nat.zero_add]
    generalize hs : coastSteps ( ColorTracker.initialize ColorTracker.mk0 cx cy r) 30 = s at h1 hcnt ⊢
    simp only [ColorTracker.update, h1, Bool.not_true, Bool.false_eq_true, if_false, hcnt]
    have hgt : ¬ 30 + 1 ≤ maxLostFrames := by decide
    rw [if_neg hgt]

/-- C3 witness: the tracker initialised at `(100, 50)` with radius 10. -/
theorem c3_witness :
    (coastSteps ( ColorTracker.initialize ColorTracker.mk0 100 50 10) 30).is_lost = false ∧
    (coastSteps ( ColorTracker.initialize ColorTracker.mk0 100 50 10) 31).is_lost = true ∧
    ((coastSteps ( ColorTracker.initialize ColorTracker.mk0 100 50 10) 29).update TrackObs.noContours).2 =
      some (pyInt 100, pyInt 50, pyInt 10) ∧
    ((coastSteps ( ColorTracker.initialize ColorTracker.mk0 100 50 10) 30).update TrackObs.noContours).2 = none :=
  ⟨(c3_tracking_loss 100 50 10).1, (c3_tracking_loss 100 50 10).2.1,
   (c3_tracking_loss 100 50 10).2.2.1 29 (by decide), (c3_tracking_loss 100 50 10).2.2.2⟩

/-! ### C1 — motion hysteresis on identical positions -/

/-- A zero displacement has zero squared distance. -/
theorem distSqQ_self (p : Pt) : distSqQ p p = 0 := by
  unfold distSqQ
  ring

/-- Consecutive displacements of a constant history are all zero. -/
theorem consecDispSq_cons_replicate (n : ℕ) (p : Pt) :
    consecDispSq (p :: List.replicate n p) = List.replicate n 0 := by
  induction n with
  | zero => rfl
  | succ m ih =>
    rw [List.replicate_succ, consecDispSq, distSqQ_self, ih, List.replicate_succ]

/-- Folding `ratMax` from `0` over zeros yields `0`. -/
theorem foldl_ratMax_zero (n : ℕ) :
    List.foldl ratMax 0 (List.replicate n (0 : ℚ)) = 0 := by
  induction n with
  | zero => rfl
  | succ m ih =>
    rw [List.replicate_succ, List.foldl_cons]
    have h : ratMax 0 0 = 0 := by norm_num [ratMax]
    rw [h, ih]

/-- The maximum displacement over a constant history is zero. -/
theorem maxDispSq_replicate (n : ℕ) (p : Pt) :
    maxDispSq (List.replicate n p) = 0 := by
  unfold maxDispSq
  cases n with
  | zero => rfl
  | succ m =>
    rw [List.replicate_succ, consecDispSq_cons_replicate, foldl_ratMax_zero]

/-- Dropping from a constant list keeps it constant. -/
theorem drop_replicate (m n : ℕ) (p : Pt) :
    (List.replicate n p).drop m = List.replicate (n - m) p := by
  induction n generalizing m with
  | zero => simp
  | succ k ih =>
    cases m with
    | zero => rfl
    | succ j =>
      rw [List.replicate_succ, List.drop_succ_cons, ih, Nat.succ_sub_succ]

/-- Appending the same position to a short constant history extends it. -/
theorem pushHist_replicate (k : ℕ) (p : Pt) (hk : k + 1 ≤ maxHistory) :
    pushHist (List.replicate k p) p = List.replicate (k + 1) p := by
  unfold pushHist
  rw [← List.replicate_succ' k p]
  simp only [List.length_replicate]
  rw [if_neg (by omega)]

/-- `_check_movement` on a constant history of at least the threshold
length: the stillness counter advances and the verdict compares it to the
threshold. -/
theorem checkMovement_still (p : Pt) (k counter : ℕ) (hk : ballStoppedFrames ≤ k) :
    checkMovement (List.replicate k p) counter =
      (decide (counter + 1 < ballStoppedFrames), counter + 1) := by
  unfold checkMovement
  simp only [List.length_replicate]
  rw [if_neg (by omega), drop_replicate, maxDispSq_replicate,
    if_pos (by norm_num [stoppedThreshSq])]

/-- `_check_movement` with a short history: assume moving, counter kept. -/
theorem checkMovement_short (hist : List Pt) (counter : ℕ)
    (hk : hist.length < ballStoppedFrames) :
    checkMovement hist counter = (true, counter) := by
  unfold checkMovement
  rw [if_pos hk]

/-- One located update that stays clear of the hole (distance at least the
hole-in tolerance) and of the stroke cap: it appends to the history, stores
the movement verdict and counter from `_check_movement`, counts a stroke
exactly on a moving → stopped transition, and touches neither the
celebration flag, the game-over flag nor the hole position. -/
theorem update_located_fields (e : MiniGolfEngine) (now : ℚ) (p hp : Pt)
    (hhole : e.state.hole_position = some hp)
    (hd : ¬ distSqQ p hp < holeInTolSq)
    (hputts : e.state.putts + 1 < maxPuttsPerHole) :
    (e.update_located now p).celebrating = e.celebrating ∧
    (e.update_located now p).state.game_over = e.state.game_over ∧
    (e.update_located now p).state.hole_position = some hp ∧
    (e.update_located now p).last_positions = pushHist e.last_positions p ∧
    (e.update_located now p).stopped_frame_count =
      (checkMovement (pushHist e.last_positions p) e.stopped_frame_count).2 ∧
    (e.update_located now p).state.is_ball_moving =
      (checkMovement (pushHist e.last_positions p) e.stopped_frame_count).1 ∧
    (e.update_located now p).state.putts =
      (if e.state.is_ball_moving &&
          !(checkMovement (pushHist e.last_positions p) e.stopped_frame_count).1 then
        e.state.putts + 1
      else e.state.putts) ∧
    (e.update_located now p).state.total_score = e.state.total_score := by
  have hopt : optLt (some (distSqQ p hp)) holeInTolSq = false := by
    simp [optLt, hd]
  simp only [maxPuttsPerHole] at hputts
  simp only [MiniGolfEngine.update_located, hhole, Option.map_some, hopt,
    Bool.false_and, Bool.false_eq_true, if_false, maxPuttsPerHole]
  repeat' split
  all_goals try simp_all
  all_goals exfalso
  all_goals omega

/-- Invariant of the fresh engine fed identical positions at least the
hole-in tolerance away from the level-1 hole: after `k ≤ 29` updates the
history holds `k` copies, the stillness counter is `k - 14`, a single stroke
is recorded exactly at update 29, and the motion flag is set exactly for
`1 ≤ k ≤ 28`. -/
theorem stillRun_inv (p : Pt) (hd : ¬ distSqQ p (45, 20) < holeInTolSq) (k : ℕ)
    (hk : k ≤ 29) :
    (stillRun p k).celebrating = false ∧
    (stillRun p k).state.game_over = false ∧
    (stillRun p k).state.hole_position = some ((45 : ℚ), (20 : ℚ)) ∧
    (stillRun p k).last_positions = List.replicate k p ∧
    (stillRun p k).stopped_frame_count = k - 14 ∧
    (stillRun p k).state.putts = (if k ≤ 28 then 0 else 1) ∧
    (stillRun p k).state.is_ball_moving = (decide (1 ≤ k) && decide (k ≤ 28)) := by
  induction k with
  | zero => exact ⟨rfl, rfl, rfl, rfl, rfl, rfl, rfl⟩
  | succ m ih =>
    obtain ⟨a, b, c, d, e', f, g⟩ := ih (by omega)
    have hstep : stillRun p (m + 1) = (stillRun p m).update 0 (some p) := by
      unfold stillRun
      rw [Function.iterate_succ_apply']
    have hupd : (stillRun p m).update 0 (some p) = (stillRun p m).update_located 0 p := by
      simp only [MiniGolfEngine.update, b, a, Bool.false_eq_true, if_false]
    have hputts : (stillRun p m).state.putts + 1 < maxPuttsPerHole := by
      rw [f]
      split <;> norm_num [maxPuttsPerHole]
    obtain ⟨u1, u2, u3, u4, u5, u6, u7, u8⟩ :=
      update_located_fields (stillRun p m) 0 p (45, 20) c hd hputts
    have hpush : pushHist (stillRun p m).last_positions p = List.replicate (m + 1) p := by
      rw [d]
      exact pushHist_replicate m p (by simp only [maxHistory, ballStoppedFrames]; omega)
    have hcm : checkMovement (List.replicate (m + 1) p) (m - 14) =
        ((decide (1 ≤ m + 1) && decide (m + 1 ≤ 28)), (m + 1) - 14) := by
      rcases Nat.lt_or_ge (m + 1) ballStoppedFrames with hlt | hge
      · rw [checkMovement_short _ _ (by simpa using hlt)]
        have h15 : m + 1 < 15 := hlt
        refine Prod.ext ?_ ?_ <;> simp <;> omega
      · rw [checkMovement_still p _ _ hge]
        have h15 : 15 ≤ m + 1 := hge
        refine Prod.ext ?_ ?_ <;> simp only [ballStoppedFrames]
        · have h1 : decide (1 ≤ m + 1) = true := by simp
          rw [h1, Bool.true_and]
          exact decide_eq_decide.mpr (by omega)
        · omega
    rw [hpush] at u4 u5 u6 u7
    rw [e'] at u5 u6 u7
    simp only [hcm] at u5 u6 u7
    rw [hstep, hupd]
    refine ⟨u1.trans a, u2.trans b, u3, u4, u5, ?_, u6⟩
    rw [u7, g, f]
    rcases Nat.lt_or_ge m 28 with h | h
    · have h1 : (decide (1 ≤ m + 1) && decide (m + 1 ≤ 28)) = true := by
        simp only [Bool.and_eq_true, decide_eq_true_eq]
        omega
      rw [h1]
      simp only [Bool.not_true, Bool.and_false, Bool.false_eq_true, if_false]
      rw [if_pos (by omega : m ≤ 28), if_pos (by omega : m + 1 ≤ 28)]
    · have hm28 : m = 28 := by omega
      subst hm28
      decide

/-- C1 (amended): starting from a fresh level and feeding identical plane
positions at least the hole-in tolerance away from the level-1 target, the
motion flag is `Moving = true` on every update strictly before the 29th and
`Moving = false` on the 29th — the stillness counter only starts once 15
history samples exist (14 updates), then needs 15 further stillness frames,
so stillness is confirmed on update 29, not 15. -/
theorem c1_motion_hysteresis (p : Pt) (hd : ¬ distSqQ p (45, 20) < holeInTolSq) :
    (∀ k, 1 ≤ k → k < 29 → (stillRun p k).state.is_ball_moving = true) ∧
    (stillRun p 29).state.is_ball_moving = false := by
  constructor
  · intro k h1 h2
    rw [(stillRun_inv p hd k (by omega)).2.2.2.2.2.2]
    simp only [Bool.and_eq_true, decide_eq_true_eq]
    omega
  · rw [(stillRun_inv p hd 29 (by omega)).2.2.2.2.2.2]
    decide

/-- C1 witness: identical positions at `(5, 5)` (distance² to the hole is
1825, far beyond the tolerance). -/
theorem c1_witness :
    ¬ distSqQ ((5 : ℚ), (5 : ℚ)) (45, 20) < holeInTolSq ∧
    (stillRun ((5 : ℚ), (5 : ℚ)) 10).state.is_ball_moving = true ∧
    (stillRun ((5 : ℚ), (5 : ℚ)) 29).state.is_ball_moving = false := by
  have hd5 : ¬ distSqQ ((5 : ℚ), (5 : ℚ)) (45, 20) < holeInTolSq := by
    norm_num [distSqQ, holeInTolSq]
  exact ⟨hd5, (c1_motion_hysteresis _ hd5).1 10 (by norm_num) (by norm_num),
    (c1_motion_hysteresis _ hd5).2⟩

/-- C1 counterexample: on the claim's own scenario (fresh level, identical
positions, here `(5, 5)`), the motion flag is still `Moving = true` after the
15th update — and still after the 20th, the whole synthetic trajectory — so
`Moving = false` is not reached by the 15th update as claimed. -/
theorem c1_counterexample :
    (stillRun ((5 : ℚ), (5 : ℚ)) 15).state.is_ball_moving = true ∧
    (stillRun ((5 : ℚ), (5 : ℚ)) 20).state.is_ball_moving = true := by
  have hd5 : ¬ distSqQ ((5 : ℚ), (5 : ℚ)) (45, 20) < holeInTolSq := by
    norm_num [distSqQ, holeInTolSq]
  constructor
  · rw [(stillRun_inv _ hd5 15 (by omega)).2.2.2.2.2.2]
    decide
  · rw [(stillRun_inv _ hd5 20 (by omega)).2.2.2.2.2.2]
    decide

/-! ### C4 — hole-in trigger, scoring and celebration freeze -/

/-- Python's `if putts == 0: putts = 1` realises a minimum of one stroke. -/
theorem ite_eq_max_one (n : ℕ) : (if n = 0 then 1 else n) = max 1 n := by
  cases n with
  | zero => rfl
  | succ m => simp [Nat.max_eq_right (by omega : 1 ≤ m + 1)]

/-- The source's hole-in guard, read back as a proposition on the squared
distance and the movement verdict. -/
theorem holeCond_iff (D : ℚ) (mv : Bool) :
    (optLt (some D) holeInTolSq && (!mv || optLt (some D) holeRadiusSq)) = true ↔
      (D < holeInTolSq ∧ (mv = false ∨ D < holeRadiusSq)) := by
  simp [optLt, Bool.and_eq_true, Bool.or_eq_true, Bool.not_eq_true']

/-- An update on a celebrating engine inside the celebration window changes
only the countdown status text. -/
theorem update_celebrating (e2 : MiniGolfEngine) (now2 : ℚ) (pos2 : Option Pt)
    (hgo2 : e2.state.game_over = false) (hc2 : e2.celebrating = true)
    (ht : ¬ celebrationDuration < now2 - e2.hole_in_time) :
    e2.update now2 pos2 =
      { e2 with state := { e2.state with
          status := Status.celebrating (celebrationDuration - (now2 - e2.hole_in_time)) } } := by
  simp only [MiniGolfEngine.update, hgo2, hc2, Bool.false_eq_true, if_false, if_true,
    if_neg ht]

/-- A located update that satisfies the hole-in guard: the celebration
starts at `now`, the holed flag is set, and the score awarded is the stroke
count of this frame (including the stroke counted on a moving → stopped
transition) clamped up to at least 1. -/
theorem update_located_hole_fields (e : MiniGolfEngine) (now : ℚ) (p hp : Pt)
    (hhole : e.state.hole_position = some hp)
    (hb : (optLt (some (distSqQ p hp)) holeInTolSq &&
      (!(checkMovement (pushHist e.last_positions p) e.stopped_frame_count).1 ||
        optLt (some (distSqQ p hp)) holeRadiusSq)) = true) :
    (e.update_located now p).celebrating = true ∧
    (e.update_located now p).state.is_hole_in = true ∧
    (e.update_located now p).hole_in_time = now ∧
    (e.update_located now p).state.game_over = e.state.game_over ∧
    (e.update_located now p).state.putts =
      max 1 (if e.state.is_ball_moving &&
          !(checkMovement (pushHist e.last_positions p) e.stopped_frame_count).1 then
        e.state.putts + 1 else e.state.putts) ∧
    (e.update_located now p).state.total_score =
      e.state.total_score +
        max 1 (if e.state.is_ball_moving &&
            !(checkMovement (pushHist e.last_positions p) e.stopped_frame_count).1 then
          e.state.putts + 1 else e.state.putts) := by
  simp only [MiniGolfEngine.update_located, hhole, Option.map_some']
  rw [if_pos hb]
  simp only [MiniGolfEngine.hole_in]
  repeat' split
  all_goals first
    | (exfalso; omega)
    | (simp_all [ite_eq_max_one]; try omega)

/-- A located update that fails the hole-in guard never starts (or stops) a
celebration. -/
theorem update_located_no_hole_celebrating (e : MiniGolfEngine) (now : ℚ) (p hp : Pt)
    (hhole : e.state.hole_position = some hp)
    (hb : (optLt (some (distSqQ p hp)) holeInTolSq &&
      (!(checkMovement (pushHist e.last_positions p) e.stopped_frame_count).1 ||
        optLt (some (distSqQ p hp)) holeRadiusSq)) = false) :
    (e.update_located now p).celebrating = e.celebrating := by
  simp only [MiniGolfEngine.update_located, hhole, Option.map_some']
  rw [if_neg (by simp [hb])]
  repeat' split
  all_goals try simp_all [MiniGolfEngine.advance_level]
  all_goals split <;> rfl

/-- C4: on a located update (engine in play: not game over, not
celebrating, hole set), hole-in triggers exactly when the squared distance
to the target is below the squared tolerance `4.0²` and (the ball is not
moving this frame or the squared distance is below the squared hole radius
`3.5²`); triggering sets the holed flag, awards a score equal to this
frame's stroke count with a minimum of 1, adds it to the cumulative total,
and starts a 3.0-second celebration during which every further update
changes nothing but the countdown status text. -/
theorem c4_hole_in_trigger (e : MiniGolfEngine) (now : ℚ) (p hp : Pt)
    (hgo : e.state.game_over = false) (hcel : e.celebrating = false)
    (hhole : e.state.hole_position = some hp) :
    ((e.update now (some p)).celebrating = true ↔
      (distSqQ p hp < holeInTolSq ∧
        ((checkMovement (pushHist e.last_positions p) e.stopped_frame_count).1 = false ∨
          distSqQ p hp < holeRadiusSq))) ∧
    ((e.update now (some p)).celebrating = true →
      (e.update now (some p)).state.is_hole_in = true ∧
      1 ≤ (e.update now (some p)).state.putts ∧
      (e.update now (some p)).state.putts =
        max 1 (if e.state.is_ball_moving &&
            !(checkMovement (pushHist e.last_positions p) e.stopped_frame_count).1 then
          e.state.putts + 1 else e.state.putts) ∧
      (e.update now (some p)).state.total_score =
        e.state.total_score + (e.update now (some p)).state.putts ∧
      (e.update now (some p)).hole_in_time = now ∧
      (e.update now (some p)).state.game_over = false) ∧
    (∀ (now2 : ℚ) (pos2 : Option Pt), (e.update now (some p)).celebrating = true →
      ¬ celebrationDuration < now2 - now →
      (e.update now (some p)).update now2 pos2 =
        { e.update now (some p) with
          state := { (e.update now (some p)).state with
                     status := Status.celebrating (celebrationDuration - (now2 - now)) } }) := by
  have hupd : e.update now (some p) = e.update_located now p := by
    simp only [MiniGolfEngine.update, hgo, hcel, Bool.false_eq_true, if_false]
  rw [hupd]
  by_cases hb : (optLt (some (distSqQ p hp)) holeInTolSq &&
      (!(checkMovement (pushHist e.last_positions p) e.stopped_frame_count).1 ||
        optLt (some (distSqQ p hp)) holeRadiusSq)) = true
  · obtain ⟨w1, w2, w3, w4, w5, w6⟩ := update_located_hole_fields e now p hp hhole hb
    refine ⟨?_, ?_, ?_⟩
    · rw [w1]
      exact iff_of_true rfl ((holeCond_iff _ _).mp hb)
    · intro _
      refine ⟨w2, ?_, w5, ?_, w3, w4.trans hgo⟩
      · rw [w5]
        exact le_max_left 1 _
      · rw [w6, w5]
    · intro now2 pos2 _ ht
      have ht' : ¬ celebrationDuration < now2 - (e.update_located now p).hole_in_time := by
        rw [w3]
        exact ht
      have hfreeze := update_celebrating (e.update_located now p) now2 pos2
        (w4.trans hgo) w1 ht'
      rw [hfreeze]
      simp only [w3]
  · have hb' : (optLt (some (distSqQ p hp)) holeInTolSq &&
        (!(checkMovement (pushHist e.last_positions p) e.stopped_frame_count).1 ||
          optLt (some (distSqQ p hp)) holeRadiusSq)) = false := by
      simpa using hb
    have w1 := update_located_no_hole_celebrating e now p hp hhole hb'
    have hfalse : (e.update_located now p).celebrating = false := w1.trans hcel
    refine ⟨?_, ?_, ?_⟩
    · rw [hfalse]
      exact iff_of_false Bool.false_ne_true
        (fun hprop => Bool.false_ne_true (hb' ▸ (holeCond_iff _ _).mpr hprop))
    · intro hcc
      rw [hfalse] at hcc
      exact absurd hcc Bool.false_ne_true
    · intro now2 pos2 hcc ht
      rw [hfalse] at hcc
      exact absurd hcc Bool.false_ne_true

/-- An in-play engine with 2 strokes recorded, total score 7, ball moving,
14 identical history samples at `(46, 19)` and stillness counter 14 — the
next identical sample stops the ball right next to the level-1 hole. -/
def engineNearHole : MiniGolfEngine :=
  { state := { GameState.init with putts := 2,
                                   total_score := 7,
                                   hole_position := some (45, 20),
                                   is_ball_moving := true },
    stopped_frame_count := 14,
    last_positions := List.replicate 14 ((46 : ℚ), (19 : ℚ)),
    hole_in_time := 0,
    celebrating := false,
    level_start_time := 0 }

/-- C4 witness: the next sample at `(46, 19)` (squared distance 2 to the
hole) stops the ball and triggers hole-in: stroke 3 is counted and awarded,
the total becomes 7 + 3, and an update one second later only rewrites the
countdown status. -/
theorem c4_witness :
    ((engineNearHole.update 100 (some (46, 19))).celebrating = true ↔
      (distSqQ (46, 19) (45, 20) < holeInTolSq ∧
        ((checkMovement (pushHist engineNearHole.last_positions (46, 19))
            engineNearHole.stopped_frame_count).1 = false ∨
          distSqQ (46, 19) (45, 20) < holeRadiusSq))) ∧
    (engineNearHole.update 100 (some (46, 19))).state.is_hole_in = true ∧
    (engineNearHole.update 100 (some (46, 19))).state.putts = 3 ∧
    (engineNearHole.update 100 (some (46, 19))).state.total_score =
      7 + (engineNearHole.update 100 (some (46, 19))).state.putts ∧
    (engineNearHole.update 100 (some (46, 19))).update 101 none =
      { engineNearHole.update 100 (some (46, 19)) with
        state := { (engineNearHole.update 100 (some (46, 19))).state with
                   status := Status.celebrating (celebrationDuration - (101 - 100)) } } := by
  have hd : distSqQ ((46 : ℚ), (19 : ℚ)) (45, 20) < holeInTolSq := by
    norm_num [distSqQ, holeInTolSq]
  have hpush : pushHist engineNearHole.last_positions ((46 : ℚ), (19 : ℚ)) =
      List.replicate 15 (46, 19) := by
    show pushHist (List.replicate 14 (46, 19)) (46, 19) = _
    exact pushHist_replicate 14 _ (by norm_num [maxHistory, ballStoppedFrames])
  have hmv : (checkMovement (pushHist engineNearHole.last_positions (46, 19))
      engineNearHole.stopped_frame_count).1 = false := by
    rw [hpush]
    show (checkMovement (List.replicate 15 (46, 19)) 14).1 = false
    rw [checkMovement_still _ _ _ (by norm_num [ballStoppedFrames])]
    decide
  have main := c4_hole_in_trigger engineNearHole 100 (46, 19) (45, 20) rfl rfl rfl
  have hcc : (engineNearHole.update 100 (some (46, 19))).celebrating = true :=
    main.1.mpr ⟨hd, Or.inl hmv⟩
  obtain ⟨hih, hp1, hpmax, htot, hhit, hgo2⟩ := main.2.1 hcc
  refine ⟨main.1, hih, ?_, htot, ?_⟩
  · rw [hpmax, hmv]
    decide
  · exact main.2.2 101 none hcc (by norm_num [celebrationDuration])

/-! ### Supporting fact: the solver path stores an exact inverse pair

`np.linalg.inv` returns the exact inverse, so whenever
`_compute_homography` succeeds the stored pair satisfies the mutual-inverse
hypothesis of the round-trip theorem. -/

/-- `inv3` returns an exact right inverse. -/
theorem mat3Mul_inv3 (M Minv : Mat3) (h : inv3 M = some Minv) :
    mat3Mul M Minv = id3 := by
  unfold inv3 at h
  by_cases hdet : det3 M = 0
  · simp only [hdet, if_pos rfl] at h
    cases h
  · rw [if_neg hdet] at h
    obtain rfl : Minv = _ := (Option.some.injEq _ _ ▸ h).symm
    have hd : det3 M ≠ 0 := hdet
    unfold mat3Mul id3 det3 at *
    refine Mat3.mk.injEq .. ▸ ?_
    refine ⟨?_, ?_, ?_, ?_, ?_, ?_, ?_, ?_, ?_⟩ <;> field_simp <;> ring

/-- A successful homography solve stores the solved matrix together with an
exact inverse and reports success. -/
theorem compute_homography_exact (c : HomographyCalibrator) (M : Mat3)
    (c2 : HomographyCalibrator) (ok : Bool)
    (h : c.compute_homography (some M) = .ok (c2, ok)) :
    ok = true ∧ c2.calibration_done = true ∧ c2.H = some M ∧
    ∃ Minv, c2.H_inv = some Minv ∧ mat3Mul M Minv = id3 := by
  unfold HomographyCalibrator.compute_homography at h
  split at h
  · rename_i heq
    exact absurd heq (by simp)
  · rename_i M' heq
    obtain rfl : M' = M := by
      injection heq with h'
      exact h'.symm
    split at h
    · exact absurd h (by simp)
    · rename_i Minv hinv
      simp only [Except.ok.injEq, Prod.mk.injEq] at h
      obtain ⟨h1, h2⟩ := h
      subst h1
      subst h2
      exact ⟨rfl, rfl, rfl, Minv, rfl, mat3Mul_inv3 _ Minv hinv⟩
